import Mathlib

/-!
Verification of the document assembly engine of the `api-documenter` HTML
documenter.  The definitions below are a shallow embedding of
`src/html/HtmlEmitter.ts` and `src/documenters/HtmlDocumenter.ts`:
JavaScript objects become inductive types, the mutating builder becomes an
explicit state (a stack of open frames), and code that can throw returns
`Except String`.  External collaborators (the entity model provider, the
tsdoc parser, `@rushstack` helpers) are represented by plain data types and
function parameters carrying exactly the information the source reads from
them.
-/

namespace ApiDocumenter

/-- `HtmlNode` from `HtmlEmitter.ts`: a tag name, an attribute map
(rendered in insertion order), and content that is either absent
(`SingleHtmlNode`), a text string (`TextHtmlNode`), or an ordered child
list (`BlockHtmlNode`).  The three constructors mirror the three content
discriminants. -/
inductive HtmlNode where
  | voidN (type : String) (attrs : List (String × String))
  | textN (type : String) (attrs : List (String × String)) (text : String)
  | blockN (type : String) (attrs : List (String × String)) (children : List HtmlNode)

/-- `tag(type, content)` with a string content: no class attribute is added
on this overload path (`_tag(type, undefined, arg1)`). -/
def tagText (type content : String) : HtmlNode :=
  HtmlNode.textN type [] content

/-- `tag(type, content)` with an `HtmlNode[]` content. -/
def tagNodes (type : String) (content : List HtmlNode) : HtmlNode :=
  HtmlNode.blockN type [] content

/-- `tag(type, className, content)` with a string content.  JavaScript
dispatches on the truthiness of the last argument: an empty string content
falls back to `_tag(type, undefined, className)`, producing a node whose
text is the class name. -/
def tagClassText (type className content : String) : HtmlNode :=
  if content ≠ "" then HtmlNode.textN type [("class", className)] content
  else if className ≠ "" then HtmlNode.textN type [] className
  else HtmlNode.textN type [] content

/-- `tag(type, className, content)` with an `HtmlNode[]` content (an array
is always truthy, so the dispatch always reaches `_tag(type, className,
content)`; `_tag` then tests the truthiness of `className`). -/
def tagClassNodes (type className : String) (content : List HtmlNode) : HtmlNode :=
  if className ≠ "" then HtmlNode.blockN type [("class", className)] content
  else HtmlNode.blockN type [] content

/-- `a(text, href)` from `HtmlEmitter.ts`. -/
def aTag (text href : String) : HtmlNode :=
  HtmlNode.textN "a" [("href", href)] text

/-- `a(text, href, className)`; a falsy (empty) class name takes the
class-less branch. -/
def aClassTag (text href className : String) : HtmlNode :=
  if className ≠ "" then HtmlNode.textN "a" [("class", className), ("href", href)] text
  else aTag text href

/-- The `thead` node built by `table(headings)`. -/
def tableHead (headings : List String) : HtmlNode :=
  HtmlNode.blockN "thead" []
    [HtmlNode.blockN "tr" [] (headings.map (fun h => tagText "th" h))]

/-- `table(headings)`: a table node whose content initially holds only the
`thead` row (rows are pushed onto the same content array afterwards). -/
def tableTag (headings : List String) : HtmlNode :=
  HtmlNode.blockN "table" [] [tableHead headings]

/-- A cell argument of `tr(cells)`: `string | HtmlNode`. -/
inductive Cell where
  | str (s : String)
  | node (n : HtmlNode)

/-- `tr(cells)`: strings become text `td` elements, nodes become `td`
elements with a singleton child list. -/
def trTag (cells : List Cell) : HtmlNode :=
  HtmlNode.blockN "tr" []
    (cells.map (fun c =>
      match c with
      | Cell.str s => tagText "td" s
      | Cell.node n => tagNodes "td" [n]))

/-- One currently-open block node of the builder: its tag, attributes and
the children appended so far.  In the TypeScript source the open node
already sits inside its parent's `content` array and is mutated in place;
here the pending children live in the frame and are folded back into the
parent when the frame is closed (or when the root is read). -/
structure Frame where
  type : String
  attrs : List (String × String)
  children : List HtmlNode

/-- The state of an `HtmlEmitter`: the stack of open nodes (`_root`), with
the synthetic root at the bottom.  `top` is `_current` (always the last
element of `_root`), `rest` the remaining stack below it, so the stack is
never empty.  `styles` is `_styles`. -/
structure EmitterState where
  top : Frame
  rest : List Frame
  styles : List String

/-- `new HtmlEmitter(rootTag)` (default root tag `'body'`). -/
def initEmitter (rootTag : String) : EmitterState :=
  ⟨⟨rootTag, [], []⟩, [], []⟩

/-- `addStyle(style)`. -/
def addStyle (s : EmitterState) (style : String) : EmitterState :=
  { s with styles := s.styles ++ [style] }

/-- `appendChild(child)`: push onto the current insertion point. -/
def appendChild (s : EmitterState) (child : HtmlNode) : EmitterState :=
  { s with top := { s.top with children := s.top.children ++ [child] } }

/-- `openNode(child)` where `child` is the block node
`blockN type attrs init`: append it and make it the insertion point.  (The
optional `fn` callback parameter of the source is never used by the
documenter and is not modelled.) -/
def openNode (s : EmitterState) (type : String) (attrs : List (String × String))
    (init : List HtmlNode) : EmitterState :=
  ⟨⟨type, attrs, init⟩, s.top :: s.rest, s.styles⟩

/-- `closeNode(name)`: a mismatching tag, or a close that would pop the
synthetic root, throws; otherwise the top frame is materialised as a block
node and appended to its parent.  The checks appear in the source's order:
the tag comparison against `_current` comes first. -/
def closeNode (s : EmitterState) (name : String) : Except String EmitterState :=
  if s.top.type ≠ name then
    Except.error ("Unexpected closing tag. Expected: " ++ s.top.type ++ " Actual: " ++ name)
  else
    match s.rest with
    | [] => Except.error ("Unexpected closing tag: " ++ name)
    | parent :: rs =>
        Except.ok ⟨⟨parent.type, parent.attrs,
          parent.children ++ [HtmlNode.blockN s.top.type s.top.attrs s.top.children]⟩, rs, s.styles⟩

/-- Collapse the stack of open frames into the single tree that `_root[0]`
holds in the mutating implementation (every open node already sits inside
its parent's content there). -/
def collapseFrames : Frame → List Frame → HtmlNode
  | f, [] => HtmlNode.blockN f.type f.attrs f.children
  | f, g :: rest =>
      collapseFrames ⟨g.type, g.attrs, g.children ++ [HtmlNode.blockN f.type f.attrs f.children]⟩ rest

/-- `root()`: the synthetic root node with everything assembled so far,
including the subtrees of nodes that are still open. -/
def rootOf (s : EmitterState) : HtmlNode :=
  collapseFrames s.top s.rest

/-- The child list of the root node (used by `_createDocNodes`, which
returns `result.root().content`). -/
def rootChildren (s : EmitterState) : List HtmlNode :=
  match rootOf s with
  | HtmlNode.blockN _ _ cs => cs
  | _ => []

/-- The synthesized `head` element of `emit()` holding one stylesheet
`link` per recorded style. -/
def headNode (styles : List String) : HtmlNode :=
  HtmlNode.blockN "head" []
    (styles.map (fun st =>
      HtmlNode.voidN "link" [("rel", "stylesheet"), ("type", "text/css"), ("href", st)]))

/-- `emit()`: the node forest handed to the external serializer
(`new HtmlCreator([head, root]).renderHTML()`); the text rendering itself
is an external collaborator and is not modelled. -/
def emitDoc (s : EmitterState) : List HtmlNode :=
  [headNode s.styles, rootOf s]

/-! ## The entity model (external collaborator)

The `@microsoft/api-extractor-model` entity tree is an external input.  The
types below carry exactly the fields the documenter reads from it. -/

/-- `ApiItemKind` (the kinds the documenter dispatches on). -/
inductive ApiItemKind where
  | Model | EntryPoint | Package | Namespace | Class | Interface | Enum | EnumMember
  | Function | Method | MethodSignature | Constructor | ConstructSignature
  | Property | PropertySignature | TypeAlias | Variable
deriving DecidableEq

/-- `ExcerptTokenKind` (only `Reference` is inspected, by the
exception-class test). -/
inductive ExcerptTokenKind where
  | Content | Reference
deriving DecidableEq

/-- One token of an excerpt token stream. -/
structure ExcerptToken where
  kind : ExcerptTokenKind
  text : String

/-- One entry of `apiItem.getHierarchy()` as read by
`_getFilenameForApiItem`: kind, display name, whether the item carries a
parameter list (`ApiParameterListMixin.isBaseClassOf`), and its one-based
overload index. -/
structure HierItem where
  kind : ApiItemKind
  displayName : String
  hasParameterList : Bool
  overloadIndex : Nat

/-- One node of a parsed doc comment (`@microsoft/tsdoc`), covering the
kinds `_createDocNodes` dispatches on.  A link tag carries an optional
explicit link text, an optional literal URL destination and an optional
symbolic code destination (rendered here by its tsdoc text, which is what
`emitAsTsdoc()` produces). -/
inductive DocNode where
  | paragraph (nodes : List DocNode)
  | block (content : List DocNode)
  | inlineTag (tagName : String)
  | softBreak
  | codeSpan (code : String)
  | fencedCode (code : String)
  | escapedText (decodedText : String)
  | linkTag (linkText : Option String) (urlDestination : Option String)
      (codeDestination : Option String)
  | plainText (text : String)
  | htmlStartTag (name : String)
  | htmlEndTag (name : String)

/-- A custom doc block (`DocBlock`), identified by its upper-cased block
tag name (`blockTag.tagNameWithUpperCase`) and its content node list. -/
structure DocBlockRec where
  tagNameUpper : String
  content : List DocNode

/-- The parts of a `DocComment` the claimed code reads: the summary
section's nodes and the custom blocks (filtered by tag for `@throws`). -/
structure DocComment where
  summarySection : List DocNode
  customBlocks : List DocBlockRec

/-- One API entity as consumed from the model provider: its kind, display
name, scoped name within the package, hierarchy chain (root to self),
whether it is an `ApiDocumentedItem`, its optional doc comment, the token
stream of its extends clause (when it is a class with one), and its member
list (for a package the members are its entry points). -/
inductive Entity where
  | mk (kind : ApiItemKind) (displayName : String) (scopedName : String)
      (hierarchy : List HierItem) (isDocumented : Bool)
      (tsdocComment : Option DocComment)
      (extendsTokens : Option (List ExcerptToken))
      (members : List Entity)

def Entity.kind : Entity → ApiItemKind
  | .mk k _ _ _ _ _ _ _ => k

def Entity.displayName : Entity → String
  | .mk _ d _ _ _ _ _ _ => d

def Entity.scopedName : Entity → String
  | .mk _ _ s _ _ _ _ _ => s

def Entity.hierarchy : Entity → List HierItem
  | .mk _ _ _ h _ _ _ _ => h

def Entity.isDocumented : Entity → Bool
  | .mk _ _ _ _ b _ _ _ => b

def Entity.tsdocComment : Entity → Option DocComment
  | .mk _ _ _ _ _ c _ _ => c

def Entity.extendsTokens : Entity → Option (List ExcerptToken)
  | .mk _ _ _ _ _ _ e _ => e

def Entity.members : Entity → List Entity
  | .mk _ _ _ _ _ _ _ m => m

/-- The result of `ApiModel.resolveDeclarationReference`: per its contract
(and §4.2 of the design) either a resolved target entity or a failure
message. -/
inductive ResolveResult where
  | resolved (e : Entity)
  | failed (msg : String)

/-! ## The reference resolver -/

/-- Modelled from the spec: `Utilities.getSafeFilenameForName` lives in
`src/utils/Utilities.ts`, which is not under `src/`; the spec says only
that hierarchy segment names are "safe-filename-encoded", so the encoding
is modelled as the identity.  (No claim below depends on the encoding.) -/
def getSafeFilenameForName (name : String) : String := name

/-- `PackageName.getUnscopedName` from `@rushstack/node-core-library` (an
external collaborator): strips the `@scope/` part of a scoped package
name (`"@scope/name"` becomes `"name"`; an unscoped name is returned
unchanged). -/
def getUnscopedName (s : String) : String :=
  match s.data with
  | '@' :: rest =>
      match rest.dropWhile (fun c => c ≠ '/') with
      | _ :: tail => String.mk tail
      | [] => s
  | _ => s

/-- The `qualifiedName` computed for one hierarchy item at lines 870-879 of
`HtmlDocumenter.ts`: the safe-encoded display name, with the suffix
`_"${overloadIndex - 1}"` appended when the item carries a parameter list
and its one-based overload index exceeds 1. -/
def hierSegment (h : HierItem) : String :=
  let qualifiedName := getSafeFilenameForName h.displayName
  if h.hasParameterList then
    if h.overloadIndex > 1 then
      qualifiedName ++ "_" ++ toString (h.overloadIndex - 1)
    else qualifiedName
  else qualifiedName

/-- `_getFilenameForApiItem`: the model root maps to `index.html`; every
other entity folds its hierarchy, skipping model and entry-point levels,
restarting the base name at the package level (with the unscoped package
name) and appending `"." + qualifiedName` for deeper levels. -/
def getFilenameForApiItem (item : Entity) : String :=
  if item.kind = ApiItemKind.Model then "index.html"
  else
    (item.hierarchy.foldl (fun baseName h =>
      match h.kind with
      | ApiItemKind.Model => baseName
      | ApiItemKind.EntryPoint => baseName
      | ApiItemKind.Package =>
          getSafeFilenameForName (getUnscopedName h.displayName)
      | _ => baseName ++ "." ++ hierSegment h) "") ++ ".html"

/-- `_getLinkFilenameForApiItem`. -/
def getLinkFilenameForApiItem (item : Entity) : String :=
  "./" ++ getFilenameForApiItem item

/-! ## Doc node translation (`_createDocNodes`) -/

/-- JavaScript truthiness of `link.urlDestination` (an optional string). -/
def urlTruthy : Option String → Bool
  | some u => u ≠ ""
  | none => false

/-- `x || y` on an optional string `x` and a default `y`. -/
def orElseText (lt : Option String) (d : String) : String :=
  match lt with
  | some t => if t ≠ "" then t else d
  | none => d

/-- The diagnostic line logged for an unresolved symbolic reference. -/
def unresolvedWarning (ref msg : String) : String :=
  "WARNING: Unable to resolve reference \"" ++ ref ++ "\": " ++ msg

mutual

/-- The body of one iteration of the `forEach` in `_createDocNodes`,
relative to the emitter state `s` being filled: returns the new emitter
state and the diagnostic lines written to the log, or the thrown error.
`resolve` stands for `this._apiModel.resolveDeclarationReference(·,
contextApiItem)`. -/
def docStep (resolve : String → ResolveResult) (s : EmitterState) :
    DocNode → Except String (EmitterState × List String)
  | DocNode.paragraph nodes =>
      match goSteps resolve (initEmitter "body") nodes with
      | Except.error e => Except.error e
      | Except.ok (inner, logs) =>
          Except.ok (appendChild s (tagNodes "p" (rootChildren inner)), logs)
  | DocNode.block content =>
      match goSteps resolve (initEmitter "body") content with
      | Except.error e => Except.error e
      | Except.ok (inner, logs) =>
          Except.ok (appendChild s (tagNodes "div" (rootChildren inner)), logs)
  | DocNode.inlineTag tagName =>
      Except.ok (appendChild s (tagText "span" tagName), [])
  | DocNode.softBreak => Except.ok (s, [])
  | DocNode.codeSpan code => Except.ok (appendChild s (tagText "code" code), [])
  | DocNode.fencedCode code => Except.ok (appendChild s (tagText "pre" code), [])
  | DocNode.escapedText decodedText =>
      Except.ok (appendChild s (tagText "span" decodedText), [])
  | DocNode.linkTag linkText urlDestination codeDestination =>
      if urlTruthy urlDestination then
        let url := urlDestination.getD ""
        Except.ok (appendChild s (aTag (orElseText linkText url) url), [])
      else
        match codeDestination with
        | some ref =>
            match resolve ref with
            | ResolveResult.resolved target =>
                let filename := getLinkFilenameForApiItem target
                let text := orElseText linkText target.scopedName
                Except.ok (appendChild s (aTag text filename), [])
            | ResolveResult.failed msg =>
                Except.ok (s, [unresolvedWarning ref msg])
        | none => Except.ok (s, [])
  | DocNode.plainText text => Except.ok (appendChild s (tagText "span" text), [])
  | DocNode.htmlStartTag name => Except.ok (openNode s name [] [], [])
  | DocNode.htmlEndTag name =>
      match closeNode s name with
      | Except.error e => Except.error e
      | Except.ok s' => Except.ok (s', [])

/-- The `forEach` loop of `_createDocNodes` over a node list, threading the
emitter state and accumulating the log lines in order. -/
def goSteps (resolve : String → ResolveResult) (s : EmitterState) :
    List DocNode → Except String (EmitterState × List String)
  | [] => Except.ok (s, [])
  | n :: rest =>
      match docStep resolve s n with
      | Except.error e => Except.error e
      | Except.ok (s', logs₁) =>
          match goSteps resolve s' rest with
          | Except.error e => Except.error e
          | Except.ok (s'', logs₂) => Except.ok (s'', logs₁ ++ logs₂)

end

/-- `_createDocNodes(nodes, contextApiItem)`: run the loop on a fresh
emitter and return `result.root().content` together with the diagnostics
logged along the way.  (Diagnostics written before a thrown error are not
retained on the error path.) -/
def createDocNodes (resolve : String → ResolveResult) (nodes : List DocNode) :
    Except String (List HtmlNode × List String) :=
  match goSteps resolve (initEmitter "body") nodes with
  | Except.error e => Except.error e
  | Except.ok (s, logs) => Except.ok (rootChildren s, logs)

/-! ## Table cells -/

/-- Modelled from the spec: `Utilities.getConciseSignature` lives in
`src/utils/Utilities.ts`, which is not under `src/`; per §4.4 the title
cell of a summary table shows the member's name, so it is modelled as the
display name. -/
def getConciseSignature (item : Entity) : String := item.displayName

/-- `_createTitleCell`. -/
def createTitleCell (item : Entity) : HtmlNode :=
  aClassTag (getConciseSignature item) (getLinkFilenameForApiItem item) "ref"

/-- `_createDescriptionCell`: the translated summary section wrapped in a
`div.description` (empty for an undocumented item), plus the diagnostics
logged by the translation. -/
def createDescriptionCell (resolve : String → ResolveResult) (item : Entity) :
    Except String (HtmlNode × List String) :=
  if item.isDocumented then
    match item.tsdocComment with
    | some c =>
        match createDocNodes resolve c.summarySection with
        | Except.error e => Except.error e
        | Except.ok (ns, logs) => Except.ok (tagClassNodes "div" "description" ns, logs)
    | none => Except.ok (tagClassNodes "div" "description" [], [])
  else Except.ok (tagClassNodes "div" "description" [], [])

/-- The `(title, description)` row built for one member of a container
page (`tr([this._createTitleCell(apiMember),
this._createDescriptionCell(apiMember, ...)])`). -/
def memberRow (resolve : String → ResolveResult) (m : Entity) :
    Except String (HtmlNode × List String) :=
  match createDescriptionCell resolve m with
  | Except.error e => Except.error e
  | Except.ok (d, logs) =>
      Except.ok (trTag [Cell.node (createTitleCell m), Cell.node d], logs)

/-! ## The Throws section (`_writeThrowsSection`) -/

/-- A table node holding the given content rows after the heading row
(`table(headings)` followed by `content.push(row)` per row). -/
def tableWithRows (headings : List String) (rows : List HtmlNode) : HtmlNode :=
  HtmlNode.blockN "table" [] (tableHead headings :: rows)

/-- The row list of the Throws table: one
`tr([tag('span', createDocNodes(block.content.nodes))])` per throws
block. -/
def throwsRows (resolve : String → ResolveResult) :
    List DocBlockRec → Except String (List HtmlNode × List String)
  | [] => Except.ok ([], [])
  | b :: rest =>
      match createDocNodes resolve b.content with
      | Except.error e => Except.error e
      | Except.ok (ns, logs₁) =>
          match throwsRows resolve rest with
          | Except.error e => Except.error e
          | Except.ok (rows, logs₂) =>
              Except.ok (trTag [Cell.node (tagNodes "span" ns)] :: rows, logs₁ ++ logs₂)

/-- The `@throws` blocks of a doc comment
(`customBlocks.filter(x => x.blockTag.tagNameWithUpperCase ===
StandardTags.throws.tagNameWithUpperCase)`). -/
def throwsBlocksOf (c : DocComment) : List DocBlockRec :=
  c.customBlocks.filter (fun b => b.tagNameUpper == "@THROWS")

/-- The `Throws` section heading node. -/
def throwsHeading : HtmlNode := tagClassText "h3" "section-heading" "Throws"

/-- `_writeThrowsSection(output, apiItem)`: only reached with a documented
item that carries a doc comment; then the heading and the (possibly empty)
table are appended unconditionally. -/
def writeThrowsSection (resolve : String → ResolveResult) (s : EmitterState)
    (item : Entity) : Except String (EmitterState × List String) :=
  if item.isDocumented then
    match item.tsdocComment with
    | some c =>
        match throwsRows resolve (throwsBlocksOf c) with
        | Except.error e => Except.error e
        | Except.ok (rows, logs) =>
            Except.ok (appendChild (appendChild s throwsHeading)
              (tableWithRows ["Error"] rows), logs)
    | none => Except.ok (s, [])
  else Except.ok (s, [])

/-! ## Container summary tables (`_writePackageOrNamespaceTables`) -/

/-- The `isError` classifier (local to `_writePackageOrNamespaceTables`):
a class is exception-like iff its extends clause has a `Reference` token
whose text is exactly `"Error"`.  The `extendsType && extendsType.excerpt`
null guards are collapsed into the single option. -/
def isErrorClass (item : Entity) : Bool :=
  match item.extendsTokens with
  | some tokens =>
      tokens.any (fun t => t.kind == ExcerptTokenKind.Reference && t.text == "Error")
  | none => false

/-- The eight per-category tables of a container page, each represented by
its content array (initially holding only the `thead` node, onto which the
member rows are pushed). -/
structure PkgNsTables where
  classesTable : List HtmlNode
  enumerationsTable : List HtmlNode
  functionsTable : List HtmlNode
  interfacesTable : List HtmlNode
  exceptionsTable : List HtmlNode
  namespacesTable : List HtmlNode
  variablesTable : List HtmlNode
  typeAliasesTable : List HtmlNode

/-- The tables as initialised at the top of
`_writePackageOrNamespaceTables`. -/
def initTables : PkgNsTables :=
  ⟨[tableHead ["Class", "Description"]],
   [tableHead ["Enumeration", "Description"]],
   [tableHead ["Function", "Description"]],
   [tableHead ["Interface", "Description"]],
   [tableHead ["Exception", "Description"]],
   [tableHead ["Namespace", "Description"]],
   [tableHead ["Variable", "Description"]],
   [tableHead ["Type Alias", "Description"]]⟩

/-- The `switch (apiMember.kind)` of the member loop: push the member's
row onto the table of its category (classes split into classes and
exceptions); kinds outside the eight categories push nothing.  The
recursive `_writeApiItemPage(apiMember)` call generates the member's own
page on a separate emitter and does not touch this page's tables. -/
def updateTables (T : PkgNsTables) (m : Entity) (row : HtmlNode) : PkgNsTables :=
  match m.kind with
  | ApiItemKind.Class =>
      if isErrorClass m then { T with exceptionsTable := T.exceptionsTable ++ [row] }
      else { T with classesTable := T.classesTable ++ [row] }
  | ApiItemKind.Enum => { T with enumerationsTable := T.enumerationsTable ++ [row] }
  | ApiItemKind.Interface => { T with interfacesTable := T.interfacesTable ++ [row] }
  | ApiItemKind.Namespace => { T with namespacesTable := T.namespacesTable ++ [row] }
  | ApiItemKind.Function => { T with functionsTable := T.functionsTable ++ [row] }
  | ApiItemKind.TypeAlias => { T with typeAliasesTable := T.typeAliasesTable ++ [row] }
  | ApiItemKind.Variable => { T with variablesTable := T.variablesTable ++ [row] }
  | _ => T

/-- The member loop of `_writePackageOrNamespaceTables`: the row (title
and translated description) is built for every member before the kind
switch, so a failing translation aborts the page for any member kind. -/
def pkgNsLoop (resolve : String → ResolveResult) (T : PkgNsTables) :
    List Entity → Except String (PkgNsTables × List String)
  | [] => Except.ok (T, [])
  | m :: rest =>
      match memberRow resolve m with
      | Except.error e => Except.error e
      | Except.ok (row, logs₁) =>
          match pkgNsLoop resolve (updateTables T m row) rest with
          | Except.error e => Except.error e
          | Except.ok (T', logs₂) => Except.ok (T', logs₁ ++ logs₂)

/-- The member list a container page iterates over: a package iterates its
sole entry point's members (`entryPoints[0].members`; the empty case
totalises what would be a crash on a malformed model), a namespace its own
members. -/
def apiMembersOf (c : Entity) : List Entity :=
  if c.kind = ApiItemKind.Package then
    match c.members with
    | e :: _ => e.members
    | [] => []
  else c.members

/-- One trailing `if (table.content.length > 1) { appendChild(heading);
appendChild(table) }` block: the emitted section, as a node list. -/
def sectionFor (title : String) (content : List HtmlNode) : List HtmlNode :=
  if content.length > 1 then
    [tagClassText "h3" "section-heading" title, HtmlNode.blockN "table" [] content]
  else []

/-- The nodes `_writePackageOrNamespaceTables` appends to the page after
the member loop, in the source's order (Classes, Enumerations, Functions,
Interfaces, Namespaces, Variables, Types, Exceptions), together with the
diagnostics logged while building the rows. -/
def pkgNsSections (resolve : String → ResolveResult) (c : Entity) :
    Except String (List HtmlNode × List String) :=
  match pkgNsLoop resolve initTables (apiMembersOf c) with
  | Except.error e => Except.error e
  | Except.ok (T, logs) =>
      Except.ok (sectionFor "Classes" T.classesTable
        ++ sectionFor "Enumerations" T.enumerationsTable
        ++ sectionFor "Functions" T.functionsTable
        ++ sectionFor "Interfaces" T.interfacesTable
        ++ sectionFor "Namespaces" T.namespacesTable
        ++ sectionFor "Variables" T.variablesTable
        ++ sectionFor "Types" T.typeAliasesTable
        ++ sectionFor "Exceptions" T.exceptionsTable, logs)

/-! ## The model page table (`_writeModelTable`) -/

/-- The member loop of `_writeModelTable`: a row is built for every member
but only `Package` members are pushed onto the Packages table content. -/
def modelLoop (resolve : String → ResolveResult) (content : List HtmlNode) :
    List Entity → Except String (List HtmlNode × List String)
  | [] => Except.ok (content, [])
  | m :: rest =>
      match memberRow resolve m with
      | Except.error e => Except.error e
      | Except.ok (row, logs₁) =>
          let content' :=
            if m.kind = ApiItemKind.Package then content ++ [row] else content
          match modelLoop resolve content' rest with
          | Except.error e => Except.error e
          | Except.ok (c', logs₂) => Except.ok (c', logs₁ ++ logs₂)

/-- The nodes `_writeModelTable` appends to the model page: the Packages
heading and table whenever the table content is nonempty — which it always
is, because the content starts with the `thead` node. -/
def modelSections (resolve : String → ResolveResult) (model : Entity) :
    Except String (List HtmlNode × List String) :=
  match modelLoop resolve [tableHead ["Package", "Description"]] model.members with
  | Except.error e => Except.error e
  | Except.ok (content, logs) =>
      Except.ok
        (if content.length > 0 then
          [tagClassText "h3" "section-heading" "Packages", HtmlNode.blockN "table" [] content]
         else [], logs)

/-! ## Parameter tables (`_writeParameterTables`) -/

/-- The value held by the `description` variable of the parameter loop:
its initial empty string, a translated node, or JavaScript `undefined`
(when a doc block translates to zero nodes and `[0]` is out of range). -/
inductive TdVal where
  | str (s : String)
  | node (n : HtmlNode)
  | undef
deriving Inhabited

/-- `createDocNodes(...)[0]` as a `TdVal`. -/
def tdValHead : List HtmlNode → TdVal
  | [] => TdVal.undef
  | n :: _ => TdVal.node n

/-- One parameter as read from `ApiParameterListMixin.parameters`. -/
structure Param where
  name : String
  parameterTypeText : String
  tsdocParamBlock : Option (List DocNode)

/-- The parameter loop of `_writeParameterTables`, carrying the
`description` variable across iterations: a parameter with a doc block
overwrites it, a parameter without one reuses the current value.  Each
produced row is the `(name, type text, description)` triple handed to
`tr`. -/
def paramLoop (resolve : String → ResolveResult) (desc : TdVal) :
    List Param → Except String (List (String × String × TdVal) × List String)
  | [] => Except.ok ([], [])
  | p :: rest =>
      match p.tsdocParamBlock with
      | some nodes =>
          match createDocNodes resolve nodes with
          | Except.error e => Except.error e
          | Except.ok (ns, logs₁) =>
              match paramLoop resolve (tdValHead ns) rest with
              | Except.error e => Except.error e
              | Except.ok (rows, logs₂) =>
                  Except.ok ((p.name, p.parameterTypeText, tdValHead ns) :: rows,
                    logs₁ ++ logs₂)
      | none =>
          match paramLoop resolve desc rest with
          | Except.error e => Except.error e
          | Except.ok (rows, logs₂) =>
              Except.ok ((p.name, p.parameterTypeText, desc) :: rows, logs₂)

/-- The row data of the parameters table, starting from the empty-string
description (`let description: HtmlNode | string = ''`). -/
def paramRows (resolve : String → ResolveResult) (ps : List Param) :
    Except String (List (String × String × TdVal) × List String) :=
  paramLoop resolve (TdVal.str "") ps

/-- Whether a parameter carries a doc block. -/
def hasDocBlock (p : Param) : Bool := p.tsdocParamBlock.isSome

/-- The last parameter of a list that carries a doc block, if any. -/
def lastDoc : List Param → Option Param
  | [] => none
  | p :: rest =>
      match lastDoc rest with
      | some q => some q
      | none => if hasDocBlock p then some p else none

/-- The description component of the `i`-th parameter row. -/
def descAt (rows : List (String × String × TdVal)) (i : Nat) : Option TdVal :=
  (rows.get? i).map (fun r => r.2.2)

/-! ## Page-unit grouping (`_writeApiItemPage`) -/

/-- `_writeApiItemPage(apiItem)`: the sibling groups written as pages when
this entity is processed (excluding the pages of recursively scheduled
members, which are produced by their own processing).  When the merged
siblings are exactly one interface and one namespace, only the interface
produces a page, covering both; otherwise the entity is written on its
own. -/
def pageUnitsFor (item : Entity) (siblings : List Entity) : List (List Entity) :=
  let interfaces := siblings.filter (fun s => s.kind == ApiItemKind.Interface)
  let namespaces := siblings.filter (fun s => s.kind == ApiItemKind.Namespace)
  if interfaces.length = 1 ∧ namespaces.length = 1 ∧ siblings.length = 2 then
    if item.kind = ApiItemKind.Interface then [interfaces ++ namespaces] else []
  else [[item]]

/-! ## Per-category member-row counts of a container page -/

/-- Members tabled as (non-exception) classes. -/
def classRowCount (ms : List Entity) : Nat :=
  (ms.filter (fun m => m.kind == ApiItemKind.Class && !isErrorClass m)).length

/-- Members tabled as exceptions (classes extending `Error`). -/
def exceptionRowCount (ms : List Entity) : Nat :=
  (ms.filter (fun m => m.kind == ApiItemKind.Class && isErrorClass m)).length

/-- Members tabled as enumerations. -/
def enumRowCount (ms : List Entity) : Nat :=
  (ms.filter (fun m => m.kind == ApiItemKind.Enum)).length

/-- Members tabled as functions. -/
def functionRowCount (ms : List Entity) : Nat :=
  (ms.filter (fun m => m.kind == ApiItemKind.Function)).length

/-- Members tabled as interfaces. -/
def interfaceRowCount (ms : List Entity) : Nat :=
  (ms.filter (fun m => m.kind == ApiItemKind.Interface)).length

/-- Members tabled as namespaces. -/
def namespaceRowCount (ms : List Entity) : Nat :=
  (ms.filter (fun m => m.kind == ApiItemKind.Namespace)).length

/-- Members tabled as variables. -/
def variableRowCount (ms : List Entity) : Nat :=
  (ms.filter (fun m => m.kind == ApiItemKind.Variable)).length

/-- Members tabled as type aliases. -/
def typeAliasRowCount (ms : List Entity) : Nat :=
  (ms.filter (fun m => m.kind == ApiItemKind.TypeAlias)).length

/-! ## Builder call sequences (for the structural round-trip property) -/

/-- One call against the builder: `appendChild` of a finished leaf node,
`openNode` of a fresh block node with empty content, or `closeNode`. -/
inductive BuilderCall where
  | append (n : HtmlNode)
  | openCall (type : String) (attrs : List (String × String))
  | closeCall (name : String)

/-- Run a sequence of builder calls against a state; a thrown
`closeNode` error aborts the sequence. -/
def runCalls (s : EmitterState) : List BuilderCall → Except String EmitterState
  | [] => Except.ok s
  | BuilderCall.append n :: rest => runCalls (appendChild s n) rest
  | BuilderCall.openCall t a :: rest => runCalls (openNode s t a []) rest
  | BuilderCall.closeCall name :: rest =>
      match closeNode s name with
      | Except.error e => Except.error e
      | Except.ok s' => runCalls s' rest

/-- `Mirrors cs ns` says that `cs` is a balanced call sequence (every open
matched by a properly nested close with the same tag) whose intended tree,
read off the call sequence itself, is the node forest `ns`: each opened
node contains, in order, exactly the nodes appended or opened between its
open and its matching close. -/
inductive Mirrors : List BuilderCall → List HtmlNode → Prop where
  | nil : Mirrors [] []
  | app {n : HtmlNode} {cs : List BuilderCall} {ns : List HtmlNode} :
      Mirrors cs ns → Mirrors (BuilderCall.append n :: cs) (n :: ns)
  | opn {t : String} {a : List (String × String)} {inner rest : List BuilderCall}
      {ns ms : List HtmlNode} :
      Mirrors inner ns → Mirrors rest ms →
      Mirrors (BuilderCall.openCall t a :: (inner ++ BuilderCall.closeCall t :: rest))
        (HtmlNode.blockN t a ns :: ms)

theorem runCalls_append (cs₁ cs₂ : List BuilderCall) :
    ∀ s : EmitterState, runCalls s (cs₁ ++ cs₂) =
      match runCalls s cs₁ with
      | Except.error e => Except.error e
      | Except.ok s' => runCalls s' cs₂ := by
  induction cs₁ with
  | nil => intro s; rfl
  | cons c rest ih =>
      intro s
      cases c with
      | append n => simpa [runCalls] using ih (appendChild s n)
      | openCall t a => simpa [runCalls] using ih (openNode s t a [])
      | closeCall name =>
          simp only [List.cons_append, runCalls]
          cases closeNode s name with
          | error e => rfl
          | ok s' => exact ih s'

theorem runCalls_mirrors {cs : List BuilderCall} {ns : List HtmlNode}
    (h : Mirrors cs ns) :
    ∀ s : EmitterState, runCalls s cs =
      Except.ok ⟨⟨s.top.type, s.top.attrs, s.top.children ++ ns⟩, s.rest, s.styles⟩ := by
  induction h with
  | nil =>
      intro s
      obtain ⟨⟨tt, ta, tc⟩, r, st⟩ := s
      simp [runCalls]
  | @app n cs ns hm ih =>
      intro s
      simp only [runCalls]
      rw [ih (appendChild s n)]
      simp [appendChild]
  | @opn t a inner rest ns ms hinner hrest ih₁ ih₂ =>
      intro s
      simp only [runCalls]
      rw [runCalls_append]
      rw [ih₁ (openNode s t a [])]
      simp only [openNode, runCalls]
      rw [show closeNode ⟨⟨t, a, [] ++ ns⟩, s.top :: s.rest, s.styles⟩ t =
        Except.ok ⟨⟨s.top.type, s.top.attrs,
          s.top.children ++ [HtmlNode.blockN t a ([] ++ ns)]⟩, s.rest, s.styles⟩ from by
          simp [closeNode]]
      show runCalls ⟨⟨s.top.type, s.top.attrs,
        s.top.children ++ [HtmlNode.blockN t a ([] ++ ns)]⟩, s.rest, s.styles⟩ rest = _
      rw [ih₂]
      simp

/-! ## Claim theorems -/

/-- C9: for every sequence of balanced open/close builder calls (each open
matched by a close with the same tag, properly nested), the tree built by
the builder has nesting that exactly mirrors the call sequence: each
opened node contains, in order, exactly the nodes appended or opened
between its open and its matching close — starting from a fresh emitter,
the run succeeds and the root's children are exactly the mirrored forest,
and from any intermediate state the mirrored forest is appended to the
current insertion point. -/
theorem c9_balanced_calls_mirror {cs : List BuilderCall} {ns : List HtmlNode}
    (h : Mirrors cs ns) :
    runCalls (initEmitter "body") cs = Except.ok ⟨⟨"body", [], ns⟩, [], []⟩ ∧
    (∀ s : EmitterState, runCalls s cs =
      Except.ok ⟨⟨s.top.type, s.top.attrs, s.top.children ++ ns⟩, s.rest, s.styles⟩) := by
  refine ⟨?_, runCalls_mirrors h⟩
  rw [runCalls_mirrors h (initEmitter "body")]
  rfl

/-- Witness for C9 at a concrete balanced sequence: open a `div`, append a
text span inside it, close the `div`, then append a code node after it. -/
theorem c9_balanced_calls_mirror_witness :
    runCalls (initEmitter "body")
      [BuilderCall.openCall "div" [("class", "main")],
       BuilderCall.append (tagText "span" "x"),
       BuilderCall.closeCall "div",
       BuilderCall.append (tagText "code" "y")] =
      Except.ok ⟨⟨"body", [],
        [HtmlNode.blockN "div" [("class", "main")] [tagText "span" "x"],
         tagText "code" "y"]⟩, [], []⟩ :=
  (c9_balanced_calls_mirror
    (Mirrors.opn (Mirrors.app Mirrors.nil) (Mirrors.app Mirrors.nil))).1

/-- C3: `closeNode(k)` fails (throws) whenever the stack holds only the
synthetic root, or `k` differs from the type of the node on top of the
stack; being a pure error result, no state change takes place. -/
theorem c3_closeNode_mismatch_fails (s : EmitterState) (k : String)
    (h : s.rest = [] ∨ s.top.type ≠ k) :
    ∃ msg, closeNode s k = Except.error msg := by
  unfold closeNode
  by_cases ht : s.top.type ≠ k
  · exact ⟨_, by rw [if_pos ht]⟩
  · rcases h with hrest | hne
    · rw [if_neg ht, hrest]
      exact ⟨_, rfl⟩
    · exact absurd hne ht

/-- Witness for C3: closing a `div` when only the synthetic `body` root is
open fails. -/
theorem c3_closeNode_mismatch_fails_witness :
    ∃ msg, closeNode (initEmitter "body") "div" = Except.error msg :=
  c3_closeNode_mismatch_fails (initEmitter "body") "div" (Or.inl rfl)

/-- C7, amended: the builder checks tag matching only inside `closeNode`;
finalization performs no balance check.  `emit()` on a state with a
still-open node produces exactly the output it would produce had the open
node been appended as a finished child, and doc-node translation of an
unmatched raw start tag succeeds, returning the still-open node in the
subtree instead of raising an error. -/
theorem c7_amended_finalize_without_balance_check :
    (∀ (s : EmitterState) (t : String) (a : List (String × String)) (cs : List HtmlNode),
       emitDoc (openNode s t a cs) = emitDoc (appendChild s (HtmlNode.blockN t a cs))) ∧
    (∀ (resolve : String → ResolveResult) (name : String),
       createDocNodes resolve [DocNode.htmlStartTag name] =
         Except.ok ([HtmlNode.blockN name [] []], [])) :=
  ⟨fun _ _ _ _ => rfl, fun _ _ => rfl⟩

/-- Counterexample to C7 as stated: finalizing with a still-open node is
not an error.  Translating a raw start tag `<b>` followed by text — with
no matching end tag — succeeds and silently returns the open `b` node,
and `emit()` on a builder state with an unclosed `div` returns a rendered
document rather than failing. -/
theorem c7_counterexample :
    createDocNodes (fun _ => ResolveResult.failed "unused")
      [DocNode.htmlStartTag "b", DocNode.plainText "x"] =
      Except.ok ([HtmlNode.blockN "b" [] [tagText "span" "x"]], []) ∧
    emitDoc (openNode (initEmitter "body") "div" [] []) =
      [headNode [], HtmlNode.blockN "body" [] [HtmlNode.blockN "div" [] []]] :=
  ⟨rfl, rfl⟩

/-- C5, amended: `_getFilenameForApiItem` is a pure function of the
entity's hierarchy (display names, kinds, overload indices) and of whether
the entity is the model root; the model root maps to the fixed
`index.html`.  It is NOT injective: two distinct entities whose hierarchy
entries agree (e.g. a same-named interface and namespace, which differ
only in their own kind) map to the same path. -/
theorem c5_amended_filename_pure_not_injective :
    (∀ e₁ e₂ : Entity,
       (e₁.kind = ApiItemKind.Model ↔ e₂.kind = ApiItemKind.Model) →
       e₁.hierarchy = e₂.hierarchy →
       getFilenameForApiItem e₁ = getFilenameForApiItem e₂) ∧
    (∀ e : Entity, e.kind = ApiItemKind.Model → getFilenameForApiItem e = "index.html") ∧
    (∃ e₁ e₂ : Entity, e₁ ≠ e₂ ∧ getFilenameForApiItem e₁ = getFilenameForApiItem e₂) := by
  refine ⟨?_, ?_, ?_⟩
  · intro e₁ e₂ hiff hh
    unfold getFilenameForApiItem
    by_cases h₁ : e₁.kind = ApiItemKind.Model
    · rw [if_pos h₁, if_pos (hiff.mp h₁)]
    · rw [if_neg h₁, if_neg (fun h₂ => h₁ (hiff.mpr h₂)), hh]
  · intro e he
    unfold getFilenameForApiItem
    rw [if_pos he]
  · refine ⟨Entity.mk ApiItemKind.Interface "Foo" "Foo"
      [⟨ApiItemKind.Package, "pkg", false, 1⟩, ⟨ApiItemKind.Interface, "Foo", false, 1⟩]
      false none none [],
      Entity.mk ApiItemKind.Namespace "Foo" "Foo"
      [⟨ApiItemKind.Package, "pkg", false, 1⟩, ⟨ApiItemKind.Namespace, "Foo", false, 1⟩]
      false none none [], ?_, rfl⟩
    intro h
    exact absurd (congrArg Entity.kind h) (by decide)

/-- Witness for C5 (purity conjunct at a concrete input): two entities
that differ only in fields outside the hierarchy and the model-root test
get the same filename. -/
theorem c5_amended_filename_pure_not_injective_witness :
    getFilenameForApiItem (Entity.mk ApiItemKind.Class "A" "A"
        [⟨ApiItemKind.Package, "pkg", false, 1⟩, ⟨ApiItemKind.Class, "A", false, 1⟩]
        false none none []) =
      getFilenameForApiItem (Entity.mk ApiItemKind.Class "A" "other.A"
        [⟨ApiItemKind.Package, "pkg", false, 1⟩, ⟨ApiItemKind.Class, "A", false, 1⟩]
        true none none []) :=
  c5_amended_filename_pure_not_injective.1 _ _ (by decide) rfl

/-- Counterexample to C5 as stated: the filename computation is not
injective over distinct entities — a same-named interface and namespace
under the same package produce the same output path. -/
theorem c5_counterexample :
    (Entity.mk ApiItemKind.Interface "Foo" "Foo"
      [⟨ApiItemKind.Package, "pkg", false, 1⟩, ⟨ApiItemKind.Interface, "Foo", false, 1⟩]
      false none none []) ≠
    (Entity.mk ApiItemKind.Namespace "Foo" "Foo"
      [⟨ApiItemKind.Package, "pkg", false, 1⟩, ⟨ApiItemKind.Namespace, "Foo", false, 1⟩]
      false none none []) ∧
    getFilenameForApiItem (Entity.mk ApiItemKind.Interface "Foo" "Foo"
      [⟨ApiItemKind.Package, "pkg", false, 1⟩, ⟨ApiItemKind.Interface, "Foo", false, 1⟩]
      false none none []) = "pkg.Foo.html" ∧
    getFilenameForApiItem (Entity.mk ApiItemKind.Namespace "Foo" "Foo"
      [⟨ApiItemKind.Package, "pkg", false, 1⟩, ⟨ApiItemKind.Namespace, "Foo", false, 1⟩]
      false none none []) = "pkg.Foo.html" :=
  ⟨fun h => absurd (congrArg Entity.kind h) (by decide), by rfl, by rfl⟩

/-- C6: in a computed filename, a hierarchy segment for a callable
(parameter-list-bearing) item carries the numeric suffix `_(n-1)` exactly
when its one-based overload index `n` exceeds 1, and no suffix when
`n ≤ 1`. -/
theorem c6_overload_suffix (h : HierItem) (hc : h.hasParameterList = true) :
    (h.overloadIndex > 1 →
      hierSegment h =
        getSafeFilenameForName h.displayName ++ "_" ++ toString (h.overloadIndex - 1)) ∧
    (h.overloadIndex ≤ 1 → hierSegment h = getSafeFilenameForName h.displayName) := by
  constructor
  · intro hgt
    unfold hierSegment
    rw [hc]
    simp [hgt]
  · intro hle
    unfold hierSegment
    rw [hc]
    simp [Nat.not_lt.mpr hle]

/-- Witness for C6: overload index 2 yields the suffix `_1`, index 3
yields `_2`, index 1 yields no suffix. -/
theorem c6_overload_suffix_witness :
    hierSegment ⟨ApiItemKind.Method, "foo", true, 2⟩ = "foo_1" ∧
    hierSegment ⟨ApiItemKind.Method, "foo", true, 3⟩ = "foo_2" ∧
    hierSegment ⟨ApiItemKind.Method, "foo", true, 1⟩ = "foo" :=
  ⟨(c6_overload_suffix ⟨ApiItemKind.Method, "foo", true, 2⟩ rfl).1 (by decide),
   (c6_overload_suffix ⟨ApiItemKind.Method, "foo", true, 3⟩ rfl).1 (by decide),
   (c6_overload_suffix ⟨ApiItemKind.Method, "foo", true, 1⟩ rfl).2 (by decide)⟩

/-- C4: when an entity's merged-sibling set is exactly one interface plus
one namespace (two siblings total), processing the interface writes
exactly one page covering both entities and processing the namespace
writes no page of its own; in every other sibling configuration the
processed entity is written as its own single page. -/
theorem c4_interface_namespace_merge :
    (∀ (item i n : Entity) (siblings : List Entity),
       siblings.filter (fun s => s.kind == ApiItemKind.Interface) = [i] →
       siblings.filter (fun s => s.kind == ApiItemKind.Namespace) = [n] →
       siblings.length = 2 →
       (item.kind = ApiItemKind.Interface → pageUnitsFor item siblings = [[i, n]]) ∧
       (item.kind ≠ ApiItemKind.Interface → pageUnitsFor item siblings = [])) ∧
    (∀ (item : Entity) (siblings : List Entity),
       ¬((siblings.filter (fun s => s.kind == ApiItemKind.Interface)).length = 1 ∧
         (siblings.filter (fun s => s.kind == ApiItemKind.Namespace)).length = 1 ∧
         siblings.length = 2) →
       pageUnitsFor item siblings = [[item]]) := by
  constructor
  · intro item i n siblings hi hn hs
    constructor
    · intro hk
      simp [pageUnitsFor, hi, hn, hs, hk]
    · intro hk
      simp [pageUnitsFor, hi, hn, hs, hk]
  · intro item siblings hcond
    simp only [pageUnitsFor]
    rw [if_neg hcond]

/-- Witness for C4 at a concrete sibling pair: an interface `Foo` and a
namespace `Foo` as the only two siblings produce one merged page when the
interface is processed and none when the namespace is processed. -/
theorem c4_interface_namespace_merge_witness :
    pageUnitsFor (Entity.mk ApiItemKind.Interface "Foo" "Foo" [] false none none [])
      [Entity.mk ApiItemKind.Interface "Foo" "Foo" [] false none none [],
       Entity.mk ApiItemKind.Namespace "Foo" "Foo" [] false none none []] =
      [[Entity.mk ApiItemKind.Interface "Foo" "Foo" [] false none none [],
        Entity.mk ApiItemKind.Namespace "Foo" "Foo" [] false none none []]] ∧
    pageUnitsFor (Entity.mk ApiItemKind.Namespace "Foo" "Foo" [] false none none [])
      [Entity.mk ApiItemKind.Interface "Foo" "Foo" [] false none none [],
       Entity.mk ApiItemKind.Namespace "Foo" "Foo" [] false none none []] = [] := by
  constructor
  · exact (c4_interface_namespace_merge.1
      (Entity.mk ApiItemKind.Interface "Foo" "Foo" [] false none none [])
      (Entity.mk ApiItemKind.Interface "Foo" "Foo" [] false none none [])
      (Entity.mk ApiItemKind.Namespace "Foo" "Foo" [] false none none [])
      [Entity.mk ApiItemKind.Interface "Foo" "Foo" [] false none none [],
       Entity.mk ApiItemKind.Namespace "Foo" "Foo" [] false none none []]
      rfl rfl rfl).1 rfl
  · exact (c4_interface_namespace_merge.1
      (Entity.mk ApiItemKind.Namespace "Foo" "Foo" [] false none none [])
      (Entity.mk ApiItemKind.Interface "Foo" "Foo" [] false none none [])
      (Entity.mk ApiItemKind.Namespace "Foo" "Foo" [] false none none [])
      [Entity.mk ApiItemKind.Interface "Foo" "Foo" [] false none none [],
       Entity.mk ApiItemKind.Namespace "Foo" "Foo" [] false none none []]
      rfl rfl rfl).2 (by decide)

/-- C8: a symbolic link reference that the model provider fails to resolve
produces no node at all in the translated output (the emitter state is
unchanged — no anchor, no placeholder), logs exactly one diagnostic line,
and translation completes successfully rather than failing: this holds for
the translation step in any surrounding emitter state, and for the
translation of the reference as a whole node list. -/
theorem c8_unresolved_reference_nonfatal (resolve : String → ResolveResult)
    (s : EmitterState) (lt : Option String) (ref msg : String)
    (hres : resolve ref = ResolveResult.failed msg) :
    docStep resolve s (DocNode.linkTag lt none (some ref)) =
      Except.ok (s, [unresolvedWarning ref msg]) ∧
    createDocNodes resolve [DocNode.linkTag lt none (some ref)] =
      Except.ok ([], [unresolvedWarning ref msg]) := by
  constructor
  · simp [docStep, urlTruthy, hres]
  · simp [createDocNodes, goSteps, docStep, urlTruthy, hres, rootChildren,
      rootOf, collapseFrames, initEmitter]

/-- Witness for C8 at a concrete unresolved reference. -/
theorem c8_unresolved_reference_nonfatal_witness :
    createDocNodes (fun _ => ResolveResult.failed "no such symbol")
      [DocNode.linkTag none none (some "Missing")] =
      Except.ok ([], [unresolvedWarning "Missing" "no such symbol"]) :=
  (c8_unresolved_reference_nonfatal (fun _ => ResolveResult.failed "no such symbol")
    (initEmitter "body") none "Missing" "no such symbol" rfl).2

theorem throwsRows_length (resolve : String → ResolveResult) :
    ∀ (bs : List DocBlockRec) (rows : List HtmlNode) (logs : List String),
      throwsRows resolve bs = Except.ok (rows, logs) → rows.length = bs.length := by
  intro bs
  induction bs with
  | nil =>
      intro rows logs h
      simp [throwsRows] at h
      simp [h.1.symm]
  | cons b rest ih =>
      intro rows logs h
      simp only [throwsRows] at h
      cases hd : createDocNodes resolve b.content with
      | error e => rw [hd] at h; exact absurd h (by simp)
      | ok pair =>
          rw [hd] at h
          cases hrest : throwsRows resolve rest with
          | error e => rw [hrest] at h; exact absurd h (by simp)
          | ok pair₂ =>
              rw [hrest] at h
              obtain ⟨hrows, _⟩ := Prod.mk.injEq .. ▸ (Except.ok.injEq .. ▸ h)
              subst hrows
              simp [ih pair₂.1 pair₂.2 (by rw [hrest])]

/-- C2, amended: for every callable entity that is a documented item and
carries a doc comment, the Throws heading and table are appended
unconditionally — one row per `@throws` block, the table rendered empty
when there are zero such blocks.  (A callable without a doc comment gets
no Throws section at all; see the counterexample.) -/
theorem c2_amended_throws_when_documented (resolve : String → ResolveResult)
    (s : EmitterState) (item : Entity) (c : DocComment)
    (rows : List HtmlNode) (logs : List String)
    (h1 : item.isDocumented = true) (h2 : item.tsdocComment = some c)
    (h3 : throwsRows resolve (throwsBlocksOf c) = Except.ok (rows, logs)) :
    writeThrowsSection resolve s item =
      Except.ok (appendChild (appendChild s throwsHeading)
        (tableWithRows ["Error"] rows), logs) ∧
    rows.length = (throwsBlocksOf c).length := by
  constructor
  · simp [writeThrowsSection, h1, h2, h3]
  · exact throwsRows_length resolve _ rows logs h3

/-- Witness for C2 (amended) at a concrete documented method with zero
`@throws` blocks: the heading and an empty table are still emitted. -/
theorem c2_amended_throws_when_documented_witness :
    writeThrowsSection (fun _ => ResolveResult.failed "unused") (initEmitter "body")
      (Entity.mk ApiItemKind.Method "m" "C.m" [] true (some ⟨[], []⟩) none []) =
      Except.ok (appendChild (appendChild (initEmitter "body") throwsHeading)
        (tableWithRows ["Error"] []), []) :=
  (c2_amended_throws_when_documented (fun _ => ResolveResult.failed "unused")
    (initEmitter "body")
    (Entity.mk ApiItemKind.Method "m" "C.m" [] true (some ⟨[], []⟩) none [])
    ⟨[], []⟩ [] [] rfl rfl rfl).1

/-- Counterexample to C2 as stated: a callable (method) without any doc
comment gets no Throws section at all — the emitter state is returned
unchanged (in particular the fresh page still has no children), where the
claim requires a Throws heading and an empty table to be present
unconditionally. -/
theorem c2_counterexample :
    writeThrowsSection (fun _ => ResolveResult.failed "unused") (initEmitter "body")
      (Entity.mk ApiItemKind.Method "m" "C.m" [] true none none []) =
      Except.ok (initEmitter "body", []) ∧
    rootChildren (initEmitter "body") = [] :=
  ⟨rfl, rfl⟩

theorem updateTables_counts (T : PkgNsTables) (m : Entity) (row : HtmlNode)
    (rest : List Entity) :
    (updateTables T m row).classesTable.length + classRowCount rest
      = T.classesTable.length + classRowCount (m :: rest) ∧
    (updateTables T m row).enumerationsTable.length + enumRowCount rest
      = T.enumerationsTable.length + enumRowCount (m :: rest) ∧
    (updateTables T m row).functionsTable.length + functionRowCount rest
      = T.functionsTable.length + functionRowCount (m :: rest) ∧
    (updateTables T m row).interfacesTable.length + interfaceRowCount rest
      = T.interfacesTable.length + interfaceRowCount (m :: rest) ∧
    (updateTables T m row).namespacesTable.length + namespaceRowCount rest
      = T.namespacesTable.length + namespaceRowCount (m :: rest) ∧
    (updateTables T m row).variablesTable.length + variableRowCount rest
      = T.variablesTable.length + variableRowCount (m :: rest) ∧
    (updateTables T m row).typeAliasesTable.length + typeAliasRowCount rest
      = T.typeAliasesTable.length + typeAliasRowCount (m :: rest) ∧
    (updateTables T m row).exceptionsTable.length + exceptionRowCount rest
      = T.exceptionsTable.length + exceptionRowCount (m :: rest) := by
  cases hk : m.kind <;>
    cases he : isErrorClass m <;>
      simp [updateTables, hk, he, classRowCount, exceptionRowCount, enumRowCount,
        functionRowCount, interfaceRowCount, namespaceRowCount, variableRowCount,
        typeAliasRowCount, List.filter_cons] <;>
      omega

theorem pkgNsLoop_counts (resolve : String → ResolveResult) :
    ∀ (ms : List Entity) (T T' : PkgNsTables) (logs : List String),
      pkgNsLoop resolve T ms = Except.ok (T', logs) →
      T'.classesTable.length = T.classesTable.length + classRowCount ms ∧
      T'.enumerationsTable.length = T.enumerationsTable.length + enumRowCount ms ∧
      T'.functionsTable.length = T.functionsTable.length + functionRowCount ms ∧
      T'.interfacesTable.length = T.interfacesTable.length + interfaceRowCount ms ∧
      T'.namespacesTable.length = T.namespacesTable.length + namespaceRowCount ms ∧
      T'.variablesTable.length = T.variablesTable.length + variableRowCount ms ∧
      T'.typeAliasesTable.length = T.typeAliasesTable.length + typeAliasRowCount ms ∧
      T'.exceptionsTable.length = T.exceptionsTable.length + exceptionRowCount ms := by
  intro ms
  induction ms with
  | nil =>
      intro T T' logs h
      simp only [pkgNsLoop, Except.ok.injEq, Prod.mk.injEq] at h
      obtain ⟨h1, _⟩ := h
      subst h1
      simp [classRowCount, enumRowCount, functionRowCount, interfaceRowCount,
        namespaceRowCount, variableRowCount, typeAliasRowCount, exceptionRowCount]
  | cons m rest ih =>
      intro T T' logs h
      rw [pkgNsLoop] at h
      split at h
      · exact absurd h (by simp)
      · rename_i row logs₁ heq
        split at h
        · exact absurd h (by simp)
        · rename_i T₂ logs₂ heq₂
          simp only [Except.ok.injEq, Prod.mk.injEq] at h
          obtain ⟨hT, _⟩ := h
          subst hT
          obtain ⟨i1, i2, i3, i4, i5, i6, i7, i8⟩ := ih _ T₂ logs₂ heq₂
          obtain ⟨u1, u2, u3, u4, u5, u6, u7, u8⟩ := updateTables_counts T m row rest
          exact ⟨by omega, by omega, by omega, by omega, by omega, by omega, by omega, by omega⟩

theorem sectionFor_ne_nil (title : String) (content : List HtmlNode) :
    sectionFor title content ≠ [] ↔ content.length > 1 := by
  unfold sectionFor
  split <;> simp_all

theorem modelLoop_extends (resolve : String → ResolveResult) :
    ∀ (ms : List Entity) (content content' : List HtmlNode) (logs : List String),
      modelLoop resolve content ms = Except.ok (content', logs) →
      ∃ tail, content' = content ++ tail := by
  intro ms
  induction ms with
  | nil =>
      intro c c' logs h
      simp only [modelLoop, Except.ok.injEq, Prod.mk.injEq] at h
      exact ⟨[], by simp [h.1.symm]⟩
  | cons m rest ih =>
      intro c c' logs h
      rw [modelLoop] at h
      split at h
      · exact absurd h (by simp)
      · rename_i row logs₁ heq
        split at h
        · dsimp only at h
          split at h
          · exact absurd h (by simp)
          · rename_i c₂ logs₂ heq₂
            simp only [Except.ok.injEq, Prod.mk.injEq] at h
            obtain ⟨hc, _⟩ := h
            subst hc
            obtain ⟨tail, htail⟩ := ih _ c₂ logs₂ heq₂
            exact ⟨[row] ++ tail, by rw [htail, List.append_assoc]⟩
        · dsimp only at h
          split at h
          · exact absurd h (by simp)
          · rename_i c₂ logs₂ heq₂
            simp only [Except.ok.injEq, Prod.mk.injEq] at h
            obtain ⟨hc, _⟩ := h
            subst hc
            exact ih _ c₂ logs₂ heq₂

/-- C1, amended: on a package or namespace page each category's heading
and two-column table appear if and only if the category contains at least
one member row — the source's `content.length > 1` emptiness check counts
the `thead` node, so a single member row already makes the section appear,
refuting the claimed "more than one" threshold (see the counterexample);
the emitted page body is exactly the concatenation of the per-category
sections in source order.  A model page never carries any of the eight
category tables: it emits exactly the Packages heading and table. -/
theorem c1_amended_section_iff_nonempty_category :
    (∀ (resolve : String → ResolveResult) (c : Entity) (T : PkgNsTables) (logs : List String),
       pkgNsLoop resolve initTables (apiMembersOf c) = Except.ok (T, logs) →
       pkgNsSections resolve c = Except.ok
         (sectionFor "Classes" T.classesTable
          ++ sectionFor "Enumerations" T.enumerationsTable
          ++ sectionFor "Functions" T.functionsTable
          ++ sectionFor "Interfaces" T.interfacesTable
          ++ sectionFor "Namespaces" T.namespacesTable
          ++ sectionFor "Variables" T.variablesTable
          ++ sectionFor "Types" T.typeAliasesTable
          ++ sectionFor "Exceptions" T.exceptionsTable, logs) ∧
       ((sectionFor "Classes" T.classesTable ≠ []) ↔ 1 ≤ classRowCount (apiMembersOf c)) ∧
       ((sectionFor "Enumerations" T.enumerationsTable ≠ []) ↔ 1 ≤ enumRowCount (apiMembersOf c)) ∧
       ((sectionFor "Functions" T.functionsTable ≠ []) ↔ 1 ≤ functionRowCount (apiMembersOf c)) ∧
       ((sectionFor "Interfaces" T.interfacesTable ≠ []) ↔ 1 ≤ interfaceRowCount (apiMembersOf c)) ∧
       ((sectionFor "Namespaces" T.namespacesTable ≠ []) ↔ 1 ≤ namespaceRowCount (apiMembersOf c)) ∧
       ((sectionFor "Variables" T.variablesTable ≠ []) ↔ 1 ≤ variableRowCount (apiMembersOf c)) ∧
       ((sectionFor "Types" T.typeAliasesTable ≠ []) ↔ 1 ≤ typeAliasRowCount (apiMembersOf c)) ∧
       ((sectionFor "Exceptions" T.exceptionsTable ≠ []) ↔ 1 ≤ exceptionRowCount (apiMembersOf c))) ∧
    (∀ (resolve : String → ResolveResult) (model : Entity) (content : List HtmlNode) (logs : List String),
       modelLoop resolve [tableHead ["Package", "Description"]] model.members = Except.ok (content, logs) →
       modelSections resolve model = Except.ok
         ([tagClassText "h3" "section-heading" "Packages",
           HtmlNode.blockN "table" [] content], logs)) := by
  constructor
  · intro resolve c T logs h
    obtain ⟨i1, i2, i3, i4, i5, i6, i7, i8⟩ := pkgNsLoop_counts resolve _ _ _ _ h
    have hinit : initTables.classesTable.length = 1 ∧ initTables.enumerationsTable.length = 1 ∧
        initTables.functionsTable.length = 1 ∧ initTables.interfacesTable.length = 1 ∧
        initTables.namespacesTable.length = 1 ∧ initTables.variablesTable.length = 1 ∧
        initTables.typeAliasesTable.length = 1 ∧ initTables.exceptionsTable.length = 1 := by
      simp [initTables]
    obtain ⟨e1, e2, e3, e4, e5, e6, e7, e8⟩ := hinit
    refine ⟨?_, ?_, ?_, ?_, ?_, ?_, ?_, ?_, ?_⟩
    · simp [pkgNsSections, h]
    · rw [sectionFor_ne_nil]; omega
    · rw [sectionFor_ne_nil]; omega
    · rw [sectionFor_ne_nil]; omega
    · rw [sectionFor_ne_nil]; omega
    · rw [sectionFor_ne_nil]; omega
    · rw [sectionFor_ne_nil]; omega
    · rw [sectionFor_ne_nil]; omega
    · rw [sectionFor_ne_nil]; omega
  · intro resolve model content logs h
    obtain ⟨tail, htail⟩ := modelLoop_extends resolve _ _ _ _ h
    have hlen : content.length > 0 := by
      rw [htail]; simp
    simp [modelSections, h, hlen]

/-- Witness for C1 (amended), pkg/ns part: an empty package produces no
category sections, and the model part at a model with one package member
produces the Packages section. -/
theorem c1_amended_section_iff_nonempty_category_witness :
    pkgNsSections (fun _ => ResolveResult.failed "unused")
      (Entity.mk ApiItemKind.Package "pkg" "pkg" [] false none none
        [Entity.mk ApiItemKind.EntryPoint "" "" [] false none none []]) =
      Except.ok ([], []) := by
  have h := (c1_amended_section_iff_nonempty_category.1
    (fun _ => ResolveResult.failed "unused")
    (Entity.mk ApiItemKind.Package "pkg" "pkg" [] false none none
      [Entity.mk ApiItemKind.EntryPoint "" "" [] false none none []])
    initTables [] rfl).1
  simpa [sectionFor, initTables] using h

/-- Counterexample to C1 as stated: a package with exactly one class
member — one member row, not "more than one" — still gets the `Classes`
heading and table on its page (the emptiness check counts the `thead`
node), so a category with exactly one member row is not suppressed. -/
theorem c1_counterexample :
    pkgNsSections (fun _ => ResolveResult.failed "unused")
      (Entity.mk ApiItemKind.Package "pkg" "pkg" [⟨ApiItemKind.Package, "pkg", false, 1⟩]
        false none none
        [Entity.mk ApiItemKind.EntryPoint "" "" [] false none none
          [Entity.mk ApiItemKind.Class "A" "A"
            [⟨ApiItemKind.Package, "pkg", false, 1⟩, ⟨ApiItemKind.Class, "A", false, 1⟩]
            false none none []]]) =
      Except.ok ([tagClassText "h3" "section-heading" "Classes",
        HtmlNode.blockN "table" []
          [tableHead ["Class", "Description"],
           trTag [Cell.node (aClassTag "A" "./pkg.A.html" "ref"),
                  Cell.node (tagClassNodes "div" "description" [])]]], []) ∧
    classRowCount (apiMembersOf
      (Entity.mk ApiItemKind.Package "pkg" "pkg" [⟨ApiItemKind.Package, "pkg", false, 1⟩]
        false none none
        [Entity.mk ApiItemKind.EntryPoint "" "" [] false none none
          [Entity.mk ApiItemKind.Class "A" "A"
            [⟨ApiItemKind.Package, "pkg", false, 1⟩, ⟨ApiItemKind.Class, "A", false, 1⟩]
            false none none []]])) = 1 := by
  constructor
  · rfl
  · rfl

theorem paramLoop_desc (resolve : String → ResolveResult) :
    ∀ (ps : List Param) (d : TdVal) (rows : List (String × String × TdVal))
      (logs : List String),
      paramLoop resolve d ps = Except.ok (rows, logs) →
      rows.length = ps.length ∧
      ∀ i, i < ps.length →
        (lastDoc (ps.take (i+1)) = none → descAt rows i = some d) ∧
        (∀ q, lastDoc (ps.take (i+1)) = some q →
          ∃ b ns ls, q.tsdocParamBlock = some b ∧
            createDocNodes resolve b = Except.ok (ns, ls) ∧
            descAt rows i = some (tdValHead ns)) := by
  intro ps
  induction ps with
  | nil =>
      intro d rows logs h
      simp only [paramLoop, Except.ok.injEq, Prod.mk.injEq] at h
      obtain ⟨h1, _⟩ := h
      subst h1
      exact ⟨rfl, fun i hi => absurd hi (by simp)⟩
  | cons p rest ih =>
      intro d rows logs h
      rw [paramLoop] at h
      split at h
      case _ nodes hdoc =>
        split at h
        · exact absurd h (by simp)
        · rename_i ns logs₁ hcr
          split at h
          · exact absurd h (by simp)
          · rename_i rows₂ logs₂ heq₂
            simp only [Except.ok.injEq, Prod.mk.injEq] at h
            obtain ⟨hrows, _⟩ := h
            subst hrows
            obtain ⟨hlen, hall⟩ := ih (tdValHead ns) rows₂ logs₂ heq₂
            refine ⟨by simp [hlen], ?_⟩
            intro i hi
            cases i with
            | zero =>
                have hlast : lastDoc ((p :: rest).take 1) = some p := by
                  simp [lastDoc, hasDocBlock, hdoc]
                constructor
                · intro hnone
                  rw [hlast] at hnone
                  exact absurd hnone (by simp)
                · intro q hq
                  rw [hlast] at hq
                  simp only [Option.some.injEq] at hq
                  subst hq
                  exact ⟨nodes, ns, logs₁, hdoc, hcr, by simp [descAt]⟩
            | succ j =>
                have hj : j < rest.length := by simpa using hi
                obtain ⟨ihnone, ihsome⟩ := hall j hj
                have hdescsucc :
                    descAt ((p.name, p.parameterTypeText, tdValHead ns) :: rows₂) (j + 1)
                      = descAt rows₂ j := by
                  simp [descAt]
                rw [List.take_succ_cons, hdescsucc]
                cases hld : lastDoc (rest.take (j + 1)) with
                | some q =>
                    constructor
                    · intro hnone
                      rw [lastDoc, hld] at hnone
                      exact absurd hnone (by simp)
                    · intro q' hq'
                      rw [lastDoc, hld] at hq'
                      simp only [Option.some.injEq] at hq'
                      subst hq'
                      exact ihsome q hld
                | none =>
                    have hlast : lastDoc (p :: rest.take (j + 1)) = some p := by
                      rw [lastDoc, hld]
                      simp [hasDocBlock, hdoc]
                    constructor
                    · intro hnone
                      rw [hlast] at hnone
                      exact absurd hnone (by simp)
                    · intro q' hq'
                      rw [hlast] at hq'
                      simp only [Option.some.injEq] at hq'
                      subst hq'
                      exact ⟨nodes, ns, logs₁, hdoc, hcr, ihnone hld⟩
      case _ hdoc =>
        split at h
        · exact absurd h (by simp)
        · rename_i rows₂ logs₂ heq₂
          simp only [Except.ok.injEq, Prod.mk.injEq] at h
          obtain ⟨hrows, _⟩ := h
          subst hrows
          obtain ⟨hlen, hall⟩ := ih d rows₂ logs₂ heq₂
          refine ⟨by simp [hlen], ?_⟩
          intro i hi
          cases i with
          | zero =>
              have hlast : lastDoc ((p :: rest).take 1) = none := by
                simp [lastDoc, hasDocBlock, hdoc]
              constructor
              · intro _
                simp [descAt]
              · intro q hq
                rw [hlast] at hq
                exact absurd hq (by simp)
          | succ j =>
              have hj : j < rest.length := by simpa using hi
              obtain ⟨ihnone, ihsome⟩ := hall j hj
              have hdescsucc :
                  descAt ((p.name, p.parameterTypeText, d) :: rows₂) (j + 1)
                    = descAt rows₂ j := by
                simp [descAt]
              rw [List.take_succ_cons, hdescsucc]
              cases hld : lastDoc (rest.take (j + 1)) with
              | some q =>
                  constructor
                  · intro hnone
                    rw [lastDoc, hld] at hnone
                    exact absurd hnone (by simp)
                  · intro q' hq'
                    rw [lastDoc, hld] at hq'
                    simp only [Option.some.injEq] at hq'
                    subst hq'
                    exact ihsome q hld
              | none =>
                  have hlast : lastDoc (p :: rest.take (j + 1)) = none := by
                    rw [lastDoc, hld]
                    simp [hasDocBlock, hdoc]
                  constructor
                  · intro _
                    exact ihnone hld
                  · intro q' hq'
                    rw [hlast] at hq'
                    exact absurd hq' (by simp)

/-- C10: in the parameters table, a parameter without a doc block does not
get a fresh empty description cell: its description is the translated
first node of the doc block of the most recent parameter up to and
including it that has one, and only when no such parameter exists is the
initial empty-string description rendered. -/
theorem c10_param_description_fallback (resolve : String → ResolveResult)
    (ps : List Param) (rows : List (String × String × TdVal)) (logs : List String)
    (hok : paramRows resolve ps = Except.ok (rows, logs)) :
    rows.length = ps.length ∧
    ∀ i, i < ps.length →
      (lastDoc (ps.take (i+1)) = none → descAt rows i = some (TdVal.str "")) ∧
      (∀ q, lastDoc (ps.take (i+1)) = some q →
        ∃ b ns ls, q.tsdocParamBlock = some b ∧
          createDocNodes resolve b = Except.ok (ns, ls) ∧
          descAt rows i = some (tdValHead ns)) :=
  paramLoop_desc resolve ps (TdVal.str "") rows logs hok

/-- Witness for C10: a doc-less parameter at the head of the list (no
earlier parameter with a doc block) gets the empty-string description. -/
theorem c10_param_description_fallback_witness :
    descAt [("a", "T", TdVal.str "")] 0 = some (TdVal.str "") := by
  obtain ⟨-, hall⟩ := c10_param_description_fallback
    (fun _ => ResolveResult.failed "unused")
    [⟨"a", "T", none⟩] [("a", "T", TdVal.str "")] [] rfl
  exact (hall 0 (by decide)).1 rfl

end ApiDocumenter
